import Mathlib

/-!
# Decayed multi-collection semantic retrieval engine — verification development

Shallow embedding of the `reflect_on_past` search handler of
`claude-self-reflection` (`src/index.ts`): the per-collection fan-out search
(plain and decay mode), the time-decay scorer, the lexical fallback search,
the result aggregation, and the result rendering.

Modelling conventions:
* JS numbers carrying similarity scores are modelled by a linear ordered field
  `K` where no transcendental function is involved, and by `ℝ` where the decay
  scorer's `Math.exp` is.  `Math.exp` is `Real.exp`.
* JS strings are Lean `String`s; operations the source uses
  (`toLowerCase`, `split(/\s+/)`, `includes`, `endsWith`, `substring`) are
  modelled by explicit recursions over `String.data` mirroring the ECMAScript
  behaviour (in particular `split(/\s+/)` keeps leading/trailing empty chunks).
* `new Date(s).getTime()` (host timestamp parsing) is an abstract parameter
  `parseTs : String → Option Int`; `none` models an absent or `NaN` parse.
* The Qdrant client is abstract: `search` and the collection listing are
  `Except`-valued functions supplied to the handler; a `.error` models a
  rejected promise, which the source catches per collection.
-/

namespace SelfReflect

/-! ## JS string primitives -/

/-- Model of ECMAScript `a.startsWith(b)` on character lists
(`needle` first): `listStartsWith n h` is true iff `n` is a prefix of `h`. -/
def listStartsWith : List Char → List Char → Bool
  | [], _ => true
  | _ :: _, [] => false
  | a :: as, b :: bs => a == b && listStartsWith as bs

/-- Model of ECMAScript `hay.includes(needle)`: true iff `needle` occurs
contiguously in `hay` (the empty needle occurs in everything). -/
def containsSub (needle : List Char) : List Char → Bool
  | [] => listStartsWith needle []
  | c :: cs => listStartsWith needle (c :: cs) || containsSub needle cs

/-- Model of ECMAScript `s.endsWith(suffix)`. -/
def strEndsWith (s suffix : String) : Bool :=
  listStartsWith suffix.data.reverse s.data.reverse

/-- Model of ECMAScript `s.toLowerCase()` (ASCII case folding, which is all
the source's collection names and queries require). -/
def lowerStr (s : String) : String := ⟨s.data.map Char.toLower⟩

/-- Auxiliary recursion for `jsSplitWs`: walk the characters; the state is
`some acc` while a chunk `acc` (reversed) is being built, and `none` while
inside a whitespace run (the chunk for the text after the run not yet
started). -/
def jsSplitWsGo : List Char → Option (List Char) → List (List Char)
  | [], some acc => [acc.reverse]
  | [], none => [[]]
  | c :: cs, some acc =>
    if c.isWhitespace then acc.reverse :: jsSplitWsGo cs none
    else jsSplitWsGo cs (some (c :: acc))
  | c :: cs, none =>
    if c.isWhitespace then jsSplitWsGo cs none
    else jsSplitWsGo cs (some [c])

/-- Model of ECMAScript `s.split(/\s+/)` on the character list of `s`:
chunks between maximal whitespace runs, keeping the empty chunks that
ECMAScript produces at a leading or trailing separator
(`"".split(/\s+/) = [""]`, `" a ".split(/\s+/) = ["", "a", ""]`). -/
def jsSplitWs (l : List Char) : List (List Char) := jsSplitWsGo l (some [])

/-- Model of the ECMAScript string-valued `a || b` idiom the source uses for
payload fallbacks: the empty string is falsy, `undefined` is `none`. -/
def jsStrOr (a : Option String) (b : String) : String :=
  match a with
  | some s => if s.isEmpty then b else s
  | none => b

/-! ## Data model

`Payload` mirrors the fields of a stored point's payload that
`handleReflectOnPast` reads (`src/index.ts`): `text`, `timestamp`,
`start_role`/`role`, `project`/`project_name`/`project_id`,
`conversation_id`; every field may be absent. -/

structure Payload where
  text : Option String
  timestamp : Option String
  startRole : Option String
  role : Option String
  project : Option String
  projectName : Option String
  projectId : Option String
  conversationId : Option String
deriving DecidableEq

/-- A point returned by the store's `search` call: id, similarity score and
payload.  The score type `K` is `ℝ` in the decay path and generic where no
transcendental arithmetic is involved. -/
structure ScoredPoint (K : Type) where
  id : String
  score : K
  payload : Payload
deriving DecidableEq

/-- A point returned by the store's `scroll` call (no score). -/
structure ScrollPoint where
  id : String
  payload : Payload
deriving DecidableEq

/-- The rendered per-request result record built by `handleReflectOnPast`. -/
structure SearchResult (K : Type) where
  id : String
  score : K
  timestamp : String
  role : String
  excerpt : String
  projectName : String
  conversationId : Option String
  collectionName : String
deriving DecidableEq

/-! ## Rendering -/

/-- Model of the project-label fallback: strip the `conv_` prefix and the
`_voyage` suffix from the collection name.  (ECMAScript `replace` with a
string pattern replaces the first occurrence; for the `conv_<project>_voyage`
names in scope each pattern occurs at most once, so `String.replace` is a
faithful model.) -/
def deriveProjectName (collectionName : String) : String :=
  (collectionName.replace "conv_" "").replace "_voyage" ""

/-- Model of the excerpt rendering: the payload text (empty-string fallback)
cut to its first 500 characters by `substring(0, 500)`, with the three-dot
ellipsis marker appended unconditionally in the source. -/
def renderExcerpt (text? : Option String) : String :=
  ⟨(jsStrOr text? "").data.take 500⟩ ++ "..."

/-- The result record the source builds for each point surviving a
collection's search (lines 351–360 of `src/index.ts`). -/
def renderPoint {K : Type} (collectionName nowIso : String) (p : ScoredPoint K) :
    SearchResult K :=
  { id := p.id
    score := p.score
    timestamp := jsStrOr p.payload.timestamp nowIso
    role := jsStrOr p.payload.startRole (jsStrOr p.payload.role "unknown")
    excerpt := renderExcerpt p.payload.text
    projectName :=
      jsStrOr p.payload.project
        (jsStrOr p.payload.projectName
          (jsStrOr p.payload.projectId (deriveProjectName collectionName)))
    conversationId := p.payload.conversationId
    collectionName := collectionName }

/-! ## Fetch limits -/

/-- Decay-mode candidate count per collection: `Math.ceil(limit * 3)`. -/
def decayFetchLimit (limit : ℕ) : ℕ := Nat.ceil ((limit : ℚ) * 3)

/-- Plain-mode candidate count per collection: `Math.ceil(limit * 1.5)`. -/
def plainFetchLimit (limit : ℕ) : ℕ := Nat.ceil ((limit : ℚ) * 1.5)

/-! ## Decay scorer -/

/-- Age of a point in milliseconds: `now - new Date(timestamp).getTime()`,
`0` when the timestamp is absent or does not parse (`parseTs` returns
`none`). -/
def decayAgeMs (parseTs : String → Option Int) (now : Int)
    (timestamp? : Option String) : Int :=
  match timestamp? with
  | some s =>
    match parseTs s with
    | some t => now - t
    | none => 0
  | none => 0

/-- Decay scale in milliseconds: `DECAY_SCALE_DAYS * 24 * 60 * 60 * 1000`. -/
noncomputable def decayScaleMs (scaleDays : ℝ) : ℝ := scaleDays * 24 * 60 * 60 * 1000

/-- Exponential decay factor `Math.exp(-ageMs / scaleMs)`. -/
noncomputable def decayFactor (scaleDays : ℝ) (ageMs : Int) : ℝ :=
  Real.exp (-(ageMs : ℝ) / decayScaleMs scaleDays)

/-- Adjusted score `originalScore + DECAY_WEIGHT * decayFactor`. -/
noncomputable def decayAdjust (weight scaleDays : ℝ) (parseTs : String → Option Int)
    (now : Int) (score : ℝ) (timestamp? : Option String) : ℝ :=
  score + weight * decayFactor scaleDays (decayAgeMs parseTs now timestamp?)

/-- The decay `map` step applied to one retrieved point: replace its score by
the decay-adjusted score (`{...point, score: adjustedScore}`). -/
noncomputable def adjustPoint (weight scaleDays : ℝ) (parseTs : String → Option Int)
    (now : Int) (p : ScoredPoint ℝ) : ScoredPoint ℝ :=
  { p with score := decayAdjust weight scaleDays parseTs now p.score p.payload.timestamp }

/-! ## Stable descending sort

`Array.prototype.sort` with comparator `(a, b) => b.score - a.score` is a
stable descending sort (ES2019 requires sort stability); the stable order is
uniquely determined by the comparator, so the insertion sort below is a
faithful model: an element is inserted before the first element of strictly
smaller score, hence after all earlier-input elements of equal score. -/

def insertScoreDesc {α K : Type} [LinearOrder K] (score : α → K) (x : α) :
    List α → List α
  | [] => [x]
  | y :: ys => if score x < score y then y :: insertScoreDesc score x ys else x :: y :: ys

/-- Stable sort by `score`, descending. -/
def sortScoreDesc {α K : Type} [LinearOrder K] (score : α → K) : List α → List α
  | [] => []
  | x :: xs => insertScoreDesc score x (sortScoreDesc score xs)

/-! ## Per-collection decay pipeline -/

/-- The decay-mode post-processing of one collection's retrieved candidates
(lines 280–333 of `src/index.ts`): adjust every score, filter to
`score >= minScore` (strictly after adjustment), sort descending by adjusted
score, truncate to `limit`. -/
noncomputable def decayProcess (weight scaleDays : ℝ) (parseTs : String → Option Int)
    (now : Int) (limit : ℕ) (minScore : ℝ) (resp : List (ScoredPoint ℝ)) :
    List (ScoredPoint ℝ) :=
  (sortScoreDesc (fun p => p.score)
    ((resp.map (adjustPoint weight scaleDays parseTs now)).filter
      (fun p => decide (minScore ≤ p.score)))).take limit

/-! ## Fan-out -/

/-- One collection's search, with the source's per-collection `try/catch`:
decay mode fetches `ceil(limit*3)` candidates with **no** score threshold and
post-processes with `decayProcess`; plain mode fetches `ceil(limit*1.5)`
candidates with the store-side threshold `minScore`.  A store failure yields
`[]` for this collection only. -/
noncomputable def searchOneCollection (shouldUseDecay : Bool) (weight scaleDays : ℝ)
    (parseTs : String → Option Int) (now : Int) (nowIso : String) (limit : ℕ)
    (minScore : ℝ)
    (search : ℕ → Option ℝ → Except String (List (ScoredPoint ℝ)))
    (name : String) : List (SearchResult ℝ) :=
  match
    (if shouldUseDecay then search (decayFetchLimit limit) none
     else search (plainFetchLimit limit) (some minScore)) with
  | .error _ => []
  | .ok resp =>
    let processed :=
      if shouldUseDecay then decayProcess weight scaleDays parseTs now limit minScore resp
      else resp
    processed.map (renderPoint name nowIso)

/-- The fan-out: one independent search per visible collection
(`voyageCollections.map(...)` + `Promise.all`, which preserves order). -/
noncomputable def fanOutSearch (shouldUseDecay : Bool) (weight scaleDays : ℝ)
    (parseTs : String → Option Int) (now : Int) (nowIso : String) (limit : ℕ)
    (minScore : ℝ) (collections : List String)
    (search : String → ℕ → Option ℝ → Except String (List (ScoredPoint ℝ))) :
    List (List (SearchResult ℝ)) :=
  collections.map (fun name =>
    searchOneCollection shouldUseDecay weight scaleDays parseTs now nowIso limit minScore
      (search name) name)

/-! ## Aggregation -/

/-- Aggregation: `allResults.flat().sort((a, b) => b.score - a.score).slice(0, limit)`. -/
def aggregateResults {K : Type} [LinearOrder K] (limit : ℕ)
    (perCollection : List (List (SearchResult K))) : List (SearchResult K) :=
  (sortScoreDesc (fun r => r.score) perCollection.flatten).take limit

/-! ## Lexical fallback -/

/-- The degraded-mode match test (lines 393–397):
`queryWords = query.toLowerCase().split(/\s+/)`, match iff the lower-cased
text `includes` some word. -/
def matchesQuery (query text : String) : Bool :=
  (jsSplitWs (lowerStr query).data).any
    (fun w => containsSub w (lowerStr text).data)

/-- Modelled from the spec's words (§4.5), for comparison with
`matchesQuery`: a point matches iff its text contains, case-insensitively
(both sides case-folded), at least one whitespace-delimited token of the
query (OR semantics). -/
def specLexicalMatch (query text : String) : Prop :=
  ∃ w ∈ jsSplitWs query.data, w.map Char.toLower <:+: (lowerStr text).data

/-- The degraded-mode search of one collection (lines 385–412): scroll a page
of 100 points (the store model honours the `limit: 100` of the scroll
request), keep those whose text matches, render each with the fixed
placeholder score `0.5`; a store failure yields `[]` for this collection. -/
def lexicalSearchCollection (K : Type) [LinearOrderedField K] (name nowIso query : String)
    (stored : Except String (List ScrollPoint)) : List (SearchResult K) :=
  match stored with
  | .error _ => []
  | .ok points =>
    ((points.take 100).filter
        (fun p => matchesQuery query (jsStrOr p.payload.text ""))).map
      (fun p => renderPoint name nowIso { id := p.id, score := (0.5 : K), payload := p.payload })

/-! ## Collection registry -/

/-- Model of `getVoyageCollections`: list all collections, keep names ending
in `_voyage`; a listing failure is caught and yields `[]`. -/
def getVoyageCollections (listResult : Except String (List String)) : List String :=
  match listResult with
  | .ok names => names.filter (fun n => strEndsWith n "_voyage")
  | .error _ => []

/-! ## The `reflect_on_past` handler -/

/-- Process-wide configuration and request-ambient values consumed by
`handleReflectOnPast`.  `isolationMode`, `allowCrossProject` and
`currentProject` are constructed at startup in the source but — exactly as in
the source — never consulted on the search path. -/
structure HandlerCtx where
  enableMemoryDecay : Bool
  decayWeight : ℝ
  decayScaleDays : ℝ
  isolationMode : String
  allowCrossProject : Bool
  currentProject : Option String
  parseTs : String → Option Int
  nowMs : Int
  nowIso : String

/-- The `reflect_on_past` request arguments (with their source defaults
already substituted by the destructuring). -/
structure ReflectArgs where
  query : String
  limit : ℕ
  project : Option String
  minScore : ℝ
  crossProject : Bool
  useDecay : Option Bool

/-- External calls the handler issues, in order: the embedding call, the
collection listing, one search or scroll per collection. -/
inductive EffectCall where
  | embedCall : EffectCall
  | listCollectionsCall : EffectCall
  | searchCall (collection : String) : EffectCall
  | scrollCall (collection : String) : EffectCall
deriving DecidableEq

/-- MCP error codes the source can throw with. -/
inductive McpErrorCode where
  | internalError : McpErrorCode
  | invalidRequest : McpErrorCode
  | methodNotFound : McpErrorCode
deriving DecidableEq

/-- The handler's successful responses: the early "no Voyage collections"
message, the "no results" message, or a non-empty result list. -/
inductive ReflectResponse where
  | noCollections : ReflectResponse
  | noResults : ReflectResponse
  | found (results : List (SearchResult ℝ)) : ReflectResponse

/-- The result list carried by a response (`[]` for the message responses). -/
def responseResults : Except McpErrorCode ReflectResponse → List (SearchResult ℝ)
  | .ok (.found rs) => rs
  | _ => []

/-- Shallow embedding of `handleReflectOnPast` (lines 193–471): no argument
validation, decay-mode default from the environment, embedding path with
fan-out and aggregation, degraded lexical path, per-collection failures
absorbed.  The second component records the external calls issued, in
order. -/
noncomputable def reflectOnPast (ctx : HandlerCtx) (hasEmbedding : Bool)
    (embedResult : Except String Unit) (listResult : Except String (List String))
    (search : String → ℕ → Option ℝ → Except String (List (ScoredPoint ℝ)))
    (scrollStored : String → Except String (List ScrollPoint))
    (args : ReflectArgs) :
    Except McpErrorCode ReflectResponse × List EffectCall :=
  let shouldUseDecay := args.useDecay.getD ctx.enableMemoryDecay
  if hasEmbedding then
    match embedResult with
    | .error _ => (.error .internalError, [.embedCall])
    | .ok _ =>
      let voyage := getVoyageCollections listResult
      if voyage.isEmpty then
        (.ok .noCollections, [.embedCall, .listCollectionsCall])
      else
        let perCollection :=
          fanOutSearch shouldUseDecay ctx.decayWeight ctx.decayScaleDays ctx.parseTs
            ctx.nowMs ctx.nowIso args.limit args.minScore voyage search
        let results := aggregateResults args.limit perCollection
        let events :=
          EffectCall.embedCall :: EffectCall.listCollectionsCall ::
            voyage.map EffectCall.searchCall
        if results.isEmpty then
          (.ok .noResults, events ++ [.listCollectionsCall])
        else
          (.ok (.found results), events)
  else
    let voyage := getVoyageCollections listResult
    let perCollection :=
      voyage.map (fun name =>
        lexicalSearchCollection ℝ name ctx.nowIso args.query (scrollStored name))
    let results := perCollection.flatten.take args.limit
    let events := EffectCall.listCollectionsCall :: voyage.map EffectCall.scrollCall
    if results.isEmpty then
      (.ok .noResults, events ++ [.listCollectionsCall])
    else
      (.ok (.found results), events)

/-! ## Concrete fixtures for closed evaluations -/

/-- A payload with every optional field absent. -/
def emptyPayload : Payload := ⟨none, none, none, none, none, none, none, none⟩

/-- A stored point of the current project's collection. -/
def payloadA : Payload :=
  { emptyPayload with
      text := some "discussed database indexing strategy"
      project := some "projA" }

/-- A stored point of a foreign project's collection. -/
def payloadB : Payload :=
  { emptyPayload with
      text := some "discussed database indexing strategy"
      project := some "projB" }

/-- Startup context: decay off, hybrid isolation, cross-project not allowed,
current project `projA` — the configuration of the isolation claim. -/
noncomputable def ctxPlain : HandlerCtx :=
  { enableMemoryDecay := false
    decayWeight := 0.3
    decayScaleDays := 90
    isolationMode := "hybrid"
    allowCrossProject := false
    currentProject := some "projA"
    parseTs := fun _ => none
    nowMs := 0
    nowIso := "1970-01-01T00:00:00.000Z" }

/-- A well-formed request with the source's defaults and `crossProject=false`. -/
noncomputable def argsIndexing : ReflectArgs :=
  { query := "indexing", limit := 5, project := none, minScore := 0.7,
    crossProject := false, useDecay := none }

/-- A malformed request: non-positive limit and out-of-range minScore. -/
noncomputable def argsMalformed : ReflectArgs :=
  { query := "q", limit := 0, project := none, minScore := 2,
    crossProject := false, useDecay := none }

/-- The collection listing with one collection per project. -/
def listTwoCollections : Except String (List String) :=
  .ok ["conv_projA_voyage", "conv_projB_voyage"]

/-- A store holding one matching point in each project's collection; the
foreign project's point scores higher. -/
noncomputable def storeTwoProjects :
    String → ℕ → Option ℝ → Except String (List (ScoredPoint ℝ)) :=
  fun name _n _threshold =>
    if name = "conv_projB_voyage" then .ok [⟨"idB", 0.9, payloadB⟩]
    else .ok [⟨"idA", 0.8, payloadA⟩]

/-- A store returning no points for any query. -/
def storeEmptyResults : String → ℕ → Option ℝ → Except String (List (ScoredPoint ℝ)) :=
  fun _ _ _ => .ok []

/-- A scroll store with no points. -/
def scrollEmptyStore : String → Except String (List ScrollPoint) :=
  fun _ => .ok []

/-- A timestamp parser that fails on every string (models `NaN` parses). -/
def parseNone : String → Option Int := fun _ => none

/-- A one-point store for the decay-pipeline evaluations: a single candidate
of raw score `0.8` with no timestamp. -/
noncomputable def decayStoreOne : ℕ → Option ℝ → Except String (List (ScoredPoint ℝ)) :=
  fun _ _ => .ok [⟨"p1", 0.8, emptyPayload⟩]

/-- Rational-scored rendered results for concrete aggregator evaluations;
`resQ1` and `resQ3` tie on score. -/
def resQ1 : SearchResult ℚ := ⟨"a", 1/2, "t", "user", "e1", "p", none, "c1"⟩

/-- Second fixture result, the highest-scoring one. -/
def resQ2 : SearchResult ℚ := ⟨"b", 3/4, "t", "user", "e2", "p", none, "c2"⟩

/-- Third fixture result, tying `resQ1`. -/
def resQ3 : SearchResult ℚ := ⟨"c", 1/2, "t", "user", "e3", "p", none, "c2"⟩

/-! ## Lemmas: stable descending sort -/

theorem perm_insertScoreDesc {α K : Type} [LinearOrder K] (score : α → K) (x : α)
    (l : List α) : (insertScoreDesc score x l).Perm (x :: l) := by
  induction l with
  | nil => exact List.Perm.refl _
  | cons y ys ih =>
    simp only [insertScoreDesc]
    split
    · exact (ih.cons y).trans (List.Perm.swap x y ys)
    · exact List.Perm.refl _

theorem perm_sortScoreDesc {α K : Type} [LinearOrder K] (score : α → K) (l : List α) :
    (sortScoreDesc score l).Perm l := by
  induction l with
  | nil => exact List.Perm.refl _
  | cons x xs ih =>
    exact (perm_insertScoreDesc score x (sortScoreDesc score xs)).trans (ih.cons x)

theorem mem_sortScoreDesc {α K : Type} [LinearOrder K] (score : α → K) (l : List α)
    (a : α) : a ∈ sortScoreDesc score l ↔ a ∈ l :=
  (perm_sortScoreDesc score l).mem_iff

theorem sorted_insertScoreDesc {α K : Type} [LinearOrder K] (score : α → K) (x : α)
    {l : List α} (hl : l.Pairwise (fun a b => score b ≤ score a)) :
    (insertScoreDesc score x l).Pairwise (fun a b => score b ≤ score a) := by
  induction l with
  | nil => simp [insertScoreDesc]
  | cons y ys ih =>
    rcases List.pairwise_cons.mp hl with ⟨hy, hys⟩
    simp only [insertScoreDesc]
    split
    · rename_i hxy
      refine List.pairwise_cons.mpr ⟨?_, ih hys⟩
      intro b hb
      rcases List.mem_cons.mp ((perm_insertScoreDesc score x ys).mem_iff.mp hb) with hb | hb
      · subst hb; exact le_of_lt hxy
      · exact hy b hb
    · rename_i hxy
      refine List.pairwise_cons.mpr ⟨?_, hl⟩
      intro b hb
      rcases List.mem_cons.mp hb with hb | hb
      · subst hb; exact not_lt.mp hxy
      · exact le_trans (hy b hb) (not_lt.mp hxy)

theorem sorted_sortScoreDesc {α K : Type} [LinearOrder K] (score : α → K) (l : List α) :
    (sortScoreDesc score l).Pairwise (fun a b => score b ≤ score a) := by
  induction l with
  | nil => simp [sortScoreDesc]
  | cons x xs ih => exact sorted_insertScoreDesc score x ih

theorem filter_insertScoreDesc {α K : Type} [LinearOrder K] (score : α → K) (v : K)
    (x : α) (l : List α) :
    (insertScoreDesc score x l).filter (fun a => decide (score a = v)) =
      if score x = v then x :: l.filter (fun a => decide (score a = v))
      else l.filter (fun a => decide (score a = v)) := by
  induction l with
  | nil =>
    by_cases hx : score x = v <;>
      simp [insertScoreDesc, List.filter_cons, hx]
  | cons y ys ih =>
    simp only [insertScoreDesc]
    split
    · rename_i hxy
      by_cases hx : score x = v
      · have hyv : ¬ score y = v := by
          intro h
          rw [hx] at hxy
          rw [h] at hxy
          exact lt_irrefl v hxy
        simp [List.filter_cons, hx, hyv, ih]
      · simp only [List.filter_cons, ih, hx, if_false]
    · by_cases hx : score x = v <;>
        simp [List.filter_cons, hx]

theorem filter_sortScoreDesc {α K : Type} [LinearOrder K] (score : α → K) (v : K)
    (l : List α) :
    (sortScoreDesc score l).filter (fun a => decide (score a = v)) =
      l.filter (fun a => decide (score a = v)) := by
  induction l with
  | nil => rfl
  | cons x xs ih =>
    simp only [sortScoreDesc, filter_insertScoreDesc, ih, List.filter_cons]
    by_cases hx : score x = v <;> simp [hx]

theorem pairwise_take_drop {α : Type} {R : α → α → Prop} {l : List α}
    (h : l.Pairwise R) (n : ℕ) {x y : α} (hx : x ∈ l.take n) (hy : y ∈ l.drop n) :
    R x y := by
  have h2 : List.Pairwise R (l.take n ++ l.drop n) := by
    rw [List.take_append_drop]; exact h
  exact (List.pairwise_append.mp h2).2.2 x hx y hy

/-! ## Lemmas: JS string primitives -/

theorem listStartsWith_iff : ∀ (n h : List Char), listStartsWith n h = true ↔ n <+: h
  | [], h => by simp [listStartsWith, List.nil_prefix]
  | a :: as, [] => by simp [listStartsWith, List.prefix_nil]
  | a :: as, b :: bs => by
    simp [listStartsWith, List.cons_prefix_cons, listStartsWith_iff as bs]

theorem containsSub_iff (n : List Char) :
    ∀ (h : List Char), containsSub n h = true ↔ n <:+: h
  | [] => by
    cases n with
    | nil => simp [containsSub, listStartsWith]
    | cons a as => simp [containsSub, listStartsWith, List.infix_nil]
  | c :: cs => by
    simp [containsSub, listStartsWith_iff, containsSub_iff n cs, List.infix_cons_iff]

theorem containsSub_nil (h : List Char) : containsSub [] h = true := by
  cases h <;> simp [containsSub, listStartsWith]

theorem toLower_of_ws {c : Char} (h : c.isWhitespace = true) : c.toLower = c := by
  simp only [Char.isWhitespace, Bool.or_eq_true, decide_eq_true_eq] at h
  rcases h with ((h | h) | h) | h <;> subst h <;> decide

theorem toNat_charOfNat_of_valid (n : ℕ) (h : n.isValidChar) :
    (Char.ofNat n).toNat = n := by
  rw [Char.ofNat, dif_pos h]
  show (BitVec.ofNatLt n _).toNat = n
  exact BitVec.toNat_ofNatLt _ _

theorem isWhitespace_toLower (c : Char) :
    c.toLower.isWhitespace = c.isWhitespace := by
  show (if c.toNat ≥ 65 ∧ c.toNat ≤ 90 then Char.ofNat (c.toNat + 32) else c).isWhitespace
      = c.isWhitespace
  split
  · rename_i h
    obtain ⟨h1, h2⟩ := h
    have hof : (Char.ofNat (c.toNat + 32)).toNat = c.toNat + 32 :=
      toNat_charOfNat_of_valid _ (Or.inl (by omega))
    have hlhs : (Char.ofNat (c.toNat + 32)).isWhitespace = false := by
      simp only [Char.isWhitespace, Bool.or_eq_false_iff, decide_eq_false_iff_not]
      refine ⟨⟨⟨?_, ?_⟩, ?_⟩, ?_⟩ <;> intro he <;>
        first
        | (have hn := congrArg Char.toNat he
           rw [hof, (by decide : Char.toNat (' ') = 32)] at hn
           omega)
        | (have hn := congrArg Char.toNat he
           rw [hof, (by decide : Char.toNat ('\t') = 9)] at hn
           omega)
        | (have hn := congrArg Char.toNat he
           rw [hof, (by decide : Char.toNat ('\x0d') = 13)] at hn
           omega)
        | (have hn := congrArg Char.toNat he
           rw [hof, (by decide : Char.toNat ('\n') = 10)] at hn
           omega)
    have hrhs : c.isWhitespace = false := by
      simp only [Char.isWhitespace, Bool.or_eq_false_iff, decide_eq_false_iff_not]
      refine ⟨⟨⟨?_, ?_⟩, ?_⟩, ?_⟩ <;> intro he <;> subst he <;>
        exact absurd h1 (by decide)
    rw [hlhs, hrhs]
  · rfl

theorem jsSplitWsGo_map_toLower :
    ∀ (l : List Char) (acc : Option (List Char)),
      jsSplitWsGo (l.map Char.toLower) (acc.map (List.map Char.toLower))
        = (jsSplitWsGo l acc).map (List.map Char.toLower)
  | [], some acc => by
    simp [jsSplitWsGo]
  | [], none => by
    simp [jsSplitWsGo]
  | c :: cs, some acc => by
    show jsSplitWsGo (c.toLower :: cs.map Char.toLower) (some (acc.map Char.toLower))
        = (jsSplitWsGo (c :: cs) (some acc)).map (List.map Char.toLower)
    simp only [jsSplitWsGo, isWhitespace_toLower]
    by_cases h : c.isWhitespace
    · have ih : jsSplitWsGo (cs.map Char.toLower) none
          = (jsSplitWsGo cs none).map (List.map Char.toLower) :=
        jsSplitWsGo_map_toLower cs none
      simp [h, ih, List.map_reverse]
    · have ih : jsSplitWsGo (cs.map Char.toLower) (some ((c :: acc).map Char.toLower))
          = (jsSplitWsGo cs (some (c :: acc))).map (List.map Char.toLower) :=
        jsSplitWsGo_map_toLower cs (some (c :: acc))
      simp only [List.map_cons] at ih
      simp [h, ih]
  | c :: cs, none => by
    show jsSplitWsGo (c.toLower :: cs.map Char.toLower) none
        = (jsSplitWsGo (c :: cs) none).map (List.map Char.toLower)
    simp only [jsSplitWsGo, isWhitespace_toLower]
    by_cases h : c.isWhitespace
    · have ih : jsSplitWsGo (cs.map Char.toLower) none
          = (jsSplitWsGo cs none).map (List.map Char.toLower) :=
        jsSplitWsGo_map_toLower cs none
      simp [h, ih]
    · have ih : jsSplitWsGo (cs.map Char.toLower) (some [c.toLower])
          = (jsSplitWsGo cs (some [c])).map (List.map Char.toLower) :=
        jsSplitWsGo_map_toLower cs (some [c])
      simp [h, ih]

theorem jsSplitWs_map_toLower (l : List Char) :
    jsSplitWs (l.map Char.toLower) = (jsSplitWs l).map (List.map Char.toLower) := by
  have h := jsSplitWsGo_map_toLower l (some [])
  simpa [jsSplitWs] using h

theorem nil_mem_jsSplitWs {l : List Char} (h : ∀ c ∈ l, c.isWhitespace = true) :
    [] ∈ jsSplitWs l := by
  cases l with
  | nil => simp [jsSplitWs, jsSplitWsGo]
  | cons c cs =>
    have hc : c.isWhitespace = true := h c (by simp)
    simp [jsSplitWs, jsSplitWsGo, hc]

theorem lowerStr_of_ws {s : String} (h : ∀ c ∈ s.data, c.isWhitespace = true) :
    (lowerStr s).data = s.data := by
  show s.data.map Char.toLower = s.data
  rw [List.map_congr_left (fun c hc => toLower_of_ws (h c hc))]
  simp

theorem jsStrOr_some_self (s : String) : jsStrOr (some s) "" = s := by
  by_cases h : s.isEmpty
  · rw [(String.isEmpty_iff s).mp h]; rfl
  · simp [jsStrOr, h]

/-! ## Lemmas: decay scorer -/

theorem decayFactor_pos (d : ℝ) (a : Int) : 0 < decayFactor d a := Real.exp_pos _

theorem decayFactor_age_zero (d : ℝ) : decayFactor d 0 = 1 := by
  simp [decayFactor]

theorem le_decayAdjust (w d : ℝ) (parseTs : String → Option Int) (now : Int) (s : ℝ)
    (ts? : Option String) (hw : 0 ≤ w) : s ≤ decayAdjust w d parseTs now s ts? := by
  have h : 0 ≤ w * decayFactor d (decayAgeMs parseTs now ts?) :=
    mul_nonneg hw (le_of_lt (decayFactor_pos _ _))
  simpa [decayAdjust] using h

/-! ## Lemmas: decay pipeline membership -/

theorem mem_decayProcess_score (w d : ℝ) (parseTs : String → Option Int) (now : Int)
    (limit : ℕ) (minScore : ℝ) (resp : List (ScoredPoint ℝ)) {q : ScoredPoint ℝ}
    (hq : q ∈ decayProcess w d parseTs now limit minScore resp) : minScore ≤ q.score := by
  have h1 := List.take_subset _ _ hq
  have h2 := (perm_sortScoreDesc (fun p : ScoredPoint ℝ => p.score) _).mem_iff.mp h1
  have h3 := (List.mem_filter.mp h2).2
  simpa using h3

theorem mem_decayProcess_of_room (w d : ℝ) (parseTs : String → Option Int) (now : Int)
    (limit : ℕ) (minScore : ℝ) (resp : List (ScoredPoint ℝ)) {q : ScoredPoint ℝ}
    (hroom : ((resp.map (adjustPoint w d parseTs now)).filter
        (fun p => decide (minScore ≤ p.score))).length ≤ limit)
    (hq : q ∈ (resp.map (adjustPoint w d parseTs now)).filter
        (fun p => decide (minScore ≤ p.score))) :
    q ∈ decayProcess w d parseTs now limit minScore resp := by
  unfold decayProcess
  rw [List.take_of_length_le]
  · exact (perm_sortScoreDesc (fun p : ScoredPoint ℝ => p.score) _).mem_iff.mpr hq
  · rw [(perm_sortScoreDesc (fun p : ScoredPoint ℝ => p.score) _).length_eq]
    exact hroom

theorem score_renderPoint {K : Type} (name nowIso : String) (p : ScoredPoint K) :
    (renderPoint name nowIso p).score = p.score := rfl

/-! ## Claim theorems -/

/-- C2: with decay weight `w ≥ 0` and scale `d > 0`, a candidate with raw
similarity `s` whose timestamp parses to time `t` gets the adjusted score
`s + w * exp(-ageMs / (d * 86400000))` where `ageMs = now - t`; at age `0`
this is exactly `s + w`, and the adjusted score is always `≥ s`. -/
theorem claim_C2_decay_adjust_formula (w d s : ℝ) (now t : Int)
    (parseTs : String → Option Int) (ts : String)
    (hw : 0 ≤ w) (hd : 0 < d) (hparse : parseTs ts = some t) :
    decayAdjust w d parseTs now s (some ts)
        = s + w * Real.exp (-(((now - t : ℤ) : ℝ)) / (d * 86400000))
      ∧ (now = t → decayAdjust w d parseTs now s (some ts) = s + w)
      ∧ s ≤ decayAdjust w d parseTs now s (some ts) := by
  refine ⟨?_, ?_, le_decayAdjust w d parseTs now s (some ts) hw⟩
  · have hms : d * 24 * 60 * 60 * 1000 = d * 86400000 := by ring
    simp only [decayAdjust, decayFactor, decayAgeMs, decayScaleMs, hparse, hms]
  · intro h
    subst h
    simp [decayAdjust, decayAgeMs, hparse, decayFactor_age_zero]

theorem claim_C2_witness :
    (0 : ℝ) ≤ 1 ∧ (0 : ℝ) < 90 ∧ (fun _ : String => some (5 : Int)) "x" = some 5 ∧
      (decayAdjust 1 90 (fun _ => some 5) 7 2 (some "x")
          = 2 + 1 * Real.exp (-((((7 : ℤ) - 5 : ℤ)) : ℝ) / (90 * 86400000))
        ∧ ((7 : ℤ) = (5 : ℤ) → decayAdjust 1 90 (fun _ => some 5) 7 2 (some "x") = 2 + 1)
        ∧ (2 : ℝ) ≤ decayAdjust 1 90 (fun _ => some 5) 7 2 (some "x")) :=
  ⟨by norm_num, by norm_num, rfl,
    claim_C2_decay_adjust_formula 1 90 2 7 5 (fun _ => some 5) "x"
      (by norm_num) (by norm_num) rfl⟩

/-- C9 counterexample: the source appends the ellipsis marker
unconditionally, so a 3-character text is *not* rendered unchanged. -/
theorem claim_C9_counterexample :
    renderExcerpt (some "abc") = "abc..." ∧ ¬ renderExcerpt (some "abc") = "abc" := by
  constructor <;> decide

/-- C9 (amended): the excerpt is the stored text capped at 500 characters
with the ellipsis marker `"..."` always appended — also when no truncation
occurred; a text of at most 500 characters renders as the full text plus the
marker, not unchanged. -/
theorem claim_C9_amended (s : String) :
    (renderExcerpt (some s)).data = s.data.take 500 ++ ['.', '.', '.']
      ∧ (s.data.length ≤ 500 →
          (renderExcerpt (some s)).data = s.data ++ ['.', '.', '.'])
      ∧ (renderExcerpt (some s)).data.length = min 500 s.data.length + 3 := by
  have hb : (renderExcerpt (some s)).data = s.data.take 500 ++ ['.', '.', '.'] := by
    rw [renderExcerpt, jsStrOr_some_self, String.data_append]
  refine ⟨hb, fun h => ?_, ?_⟩
  · rw [hb, List.take_of_length_le h]
  · rw [hb, List.length_append, List.length_take]
    rfl

theorem claim_C9_amended_witness :
    "abc".data.length ≤ 500 ∧
      ((renderExcerpt (some "abc")).data = "abc".data.take 500 ++ ['.', '.', '.']
        ∧ ("abc".data.length ≤ 500 →
            (renderExcerpt (some "abc")).data = "abc".data ++ ['.', '.', '.'])
        ∧ (renderExcerpt (some "abc")).data.length = min 500 "abc".data.length + 3) :=
  ⟨by decide, claim_C9_amended "abc"⟩

/-- C4: a failing collection is caught and contributes an empty list for that
collection only, for every combination of failing and succeeding collections,
in both modes: replacing the store by one failing exactly on `fail`-marked
collections yields, collection by collection, `[]` there and the unchanged
result elsewhere. -/
theorem claim_C4_failure_isolated (shouldUseDecay : Bool) (w d : ℝ)
    (parseTs : String → Option Int) (now : Int) (nowIso : String) (limit : ℕ)
    (minScore : ℝ) (collections : List String)
    (store : String → ℕ → Option ℝ → Except String (List (ScoredPoint ℝ)))
    (fail : String → Bool) (e : String) :
    fanOutSearch shouldUseDecay w d parseTs now nowIso limit minScore collections
        (fun name n th => if fail name then Except.error e else store name n th)
      = collections.map (fun name =>
          if fail name then []
          else searchOneCollection shouldUseDecay w d parseTs now nowIso limit minScore
            (store name) name) := by
  unfold fanOutSearch
  apply List.map_congr_left
  intro name _
  by_cases h : fail name
  · cases shouldUseDecay <;> simp [searchOneCollection, h]
  · simp [h]

/-- C7: in degraded mode, every returned result carries the fixed score
`0.5`; only the first page of `100` scrolled points is scanned; and the match
test agrees with the spec predicate: a point matches iff its text contains,
case-insensitively, at least one whitespace-delimited token of the query
(OR semantics). -/
theorem claim_C7_lexical_fallback (K : Type) [LinearOrderedField K]
    (name nowIso query : String) (points : List ScrollPoint) :
    (∀ r ∈ lexicalSearchCollection K name nowIso query (.ok points),
        r.score = (0.5 : K))
      ∧ lexicalSearchCollection K name nowIso query (.ok points)
          = lexicalSearchCollection K name nowIso query (.ok (points.take 100))
      ∧ (lexicalSearchCollection K name nowIso query (.ok points)).length ≤ 100
      ∧ ∀ text : String, (matchesQuery query text = true ↔ specLexicalMatch query text) := by
  refine ⟨?_, ?_, ?_, ?_⟩
  · intro r hr
    rcases List.mem_map.mp hr with ⟨p, hp, hrp⟩
    rw [← hrp]
    rfl
  · simp [lexicalSearchCollection, List.take_take]
  · simp only [lexicalSearchCollection]
    calc (((points.take 100).filter
          (fun p => matchesQuery query (jsStrOr p.payload.text ""))).map
            (fun p => renderPoint name nowIso ⟨p.id, (0.5 : K), p.payload⟩)).length
        = ((points.take 100).filter
            (fun p => matchesQuery query (jsStrOr p.payload.text ""))).length :=
          List.length_map _ _
      _ ≤ (points.take 100).length := List.length_filter_le _ _
      _ ≤ 100 := List.length_take_le _ _
  · intro text
    have hq : (lowerStr query).data = query.data.map Char.toLower := rfl
    simp only [matchesQuery, hq, jsSplitWs_map_toLower, List.any_map, specLexicalMatch]
    simp [List.any_eq_true, containsSub_iff, Function.comp]

theorem claim_C7_witness :
    (∀ r ∈ lexicalSearchCollection ℚ "conv_p_voyage" "now" "Hello world"
        (.ok [⟨"i1", { emptyPayload with text := some "say hello!" }⟩]),
        r.score = (0.5 : ℚ))
      ∧ lexicalSearchCollection ℚ "conv_p_voyage" "now" "Hello world"
            (.ok [⟨"i1", { emptyPayload with text := some "say hello!" }⟩])
          = lexicalSearchCollection ℚ "conv_p_voyage" "now" "Hello world"
            (.ok ([(⟨"i1", { emptyPayload with text := some "say hello!" }⟩ : ScrollPoint)].take 100))
      ∧ (lexicalSearchCollection ℚ "conv_p_voyage" "now" "Hello world"
            (.ok [⟨"i1", { emptyPayload with text := some "say hello!" }⟩])).length ≤ 100
      ∧ ∀ text : String,
          (matchesQuery "Hello world" text = true ↔ specLexicalMatch "Hello world" text) :=
  claim_C7_lexical_fallback ℚ "conv_p_voyage" "now" "Hello world"
    [⟨"i1", { emptyPayload with text := some "say hello!" }⟩]

/-- C10: a query consisting only of whitespace (or empty) matches every
point in degraded mode — splitting it on whitespace yields the empty token,
which every text contains — so the per-collection result is the whole scanned
page of (at most 100) points, not the empty list, and the degraded handler
returns the first `limit` of the concatenated scanned pages. -/
theorem claim_C10_whitespace_query {K : Type} [LinearOrderedField K] (query : String)
    (hq : ∀ c ∈ query.data, c.isWhitespace = true) :
    (∀ text : String, matchesQuery query text = true)
      ∧ (∀ (name nowIso : String) (points : List ScrollPoint),
          lexicalSearchCollection K name nowIso query (.ok points)
            = (points.take 100).map
                (fun p => renderPoint name nowIso ⟨p.id, (0.5 : K), p.payload⟩))
      ∧ ∀ (ctx : HandlerCtx) (embedResult : Except String Unit)
          (listResult : Except String (List String))
          (search : String → ℕ → Option ℝ → Except String (List (ScoredPoint ℝ)))
          (scrollStored : String → Except String (List ScrollPoint))
          (args : ReflectArgs), args.query = query →
          responseResults
              (reflectOnPast ctx false embedResult listResult search scrollStored args).1
            = ((getVoyageCollections listResult).map (fun name =>
                match scrollStored name with
                | .error _ => []
                | .ok pts => (pts.take 100).map
                    (fun p => renderPoint name ctx.nowIso
                      ⟨p.id, (0.5 : ℝ), p.payload⟩))).flatten.take args.limit := by
  have hmatch : ∀ text : String, matchesQuery query text = true := by
    intro text
    unfold matchesQuery
    apply List.any_eq_true.mpr
    refine ⟨[], ?_, containsSub_nil _⟩
    apply nil_mem_jsSplitWs
    rw [lowerStr_of_ws hq]
    exact hq
  have hlex : ∀ (K₂ : Type) (inst : LinearOrderedField K₂) (name nowIso : String)
      (points : List ScrollPoint),
      lexicalSearchCollection K₂ name nowIso query (.ok points)
        = (points.take 100).map
            (fun p => renderPoint name nowIso ⟨p.id, (0.5 : K₂), p.payload⟩) := by
    intro K₂ inst name nowIso points
    simp only [lexicalSearchCollection]
    rw [List.filter_eq_self.mpr (fun p _ => hmatch _)]
  refine ⟨hmatch, fun name nowIso points => hlex K _ name nowIso points, ?_⟩
  intro ctx embedResult listResult search scrollStored args hquery
  have hcol : ∀ name, lexicalSearchCollection ℝ name ctx.nowIso args.query (scrollStored name)
      = match scrollStored name with
        | .error _ => []
        | .ok pts => (pts.take 100).map
            (fun p => renderPoint name ctx.nowIso ⟨p.id, (0.5 : ℝ), p.payload⟩) := by
    intro name
    cases hst : scrollStored name with
    | error e => simp [lexicalSearchCollection]
    | ok pts =>
      rw [hquery]
      exact hlex ℝ _ name ctx.nowIso pts
  have hres : (getVoyageCollections listResult).map (fun name =>
        lexicalSearchCollection ℝ name ctx.nowIso args.query (scrollStored name))
      = (getVoyageCollections listResult).map (fun name =>
          match scrollStored name with
          | .error _ => []
          | .ok pts => (pts.take 100).map
              (fun p => renderPoint name ctx.nowIso ⟨p.id, (0.5 : ℝ), p.payload⟩)) :=
    List.map_congr_left (fun name _ => hcol name)
  simp only [reflectOnPast, Bool.false_eq_true, if_false, hres]
  split
  · rename_i h
    simp only [responseResults]
    exact (List.isEmpty_iff.mp h).symm
  · rfl

theorem claim_C10_witness :
    (∀ c ∈ (" " : String).data, c.isWhitespace = true) ∧
      ((∀ text : String, matchesQuery " " text = true)
        ∧ (∀ (name nowIso : String) (points : List ScrollPoint),
            lexicalSearchCollection ℚ name nowIso " " (.ok points)
              = (points.take 100).map
                  (fun p => renderPoint name nowIso ⟨p.id, (0.5 : ℚ), p.payload⟩))
        ∧ ∀ (ctx : HandlerCtx) (embedResult : Except String Unit)
            (listResult : Except String (List String))
            (search : String → ℕ → Option ℝ → Except String (List (ScoredPoint ℝ)))
            (scrollStored : String → Except String (List ScrollPoint))
            (args : ReflectArgs), args.query = " " →
            responseResults
                (reflectOnPast ctx false embedResult listResult search scrollStored args).1
              = ((getVoyageCollections listResult).map (fun name =>
                  match scrollStored name with
                  | .error _ => []
                  | .ok pts => (pts.take 100).map
                      (fun p => renderPoint name ctx.nowIso
                        ⟨p.id, (0.5 : ℝ), p.payload⟩))).flatten.take args.limit) :=
  ⟨by decide, claim_C10_whitespace_query " " (by decide)⟩

/-- C5: the aggregator's merge sorts the flattened per-collection lists by
score descending with a stable sort (ties keep input order: for every score
value, filtering the sorted list to that score gives exactly the input-order
sublist), performs no deduplication (the sorted list is a permutation of the
input), and truncates to `limit`; with at least `limit` candidates exactly
`limit` results are returned and they dominate every dropped candidate's
score. -/
theorem claim_C5_aggregate_merge {K : Type} [LinearOrder K]
    (perCollection : List (List (SearchResult K))) (limit : ℕ)
    (hk : limit ≤ perCollection.flatten.length) :
    aggregateResults limit perCollection
        = (sortScoreDesc (fun r : SearchResult K => r.score) perCollection.flatten).take limit
      ∧ (sortScoreDesc (fun r : SearchResult K => r.score) perCollection.flatten).Perm
          perCollection.flatten
      ∧ (sortScoreDesc (fun r : SearchResult K => r.score) perCollection.flatten).Pairwise
          (fun a b => b.score ≤ a.score)
      ∧ (∀ v : K,
          (sortScoreDesc (fun r : SearchResult K => r.score) perCollection.flatten).filter
              (fun r => decide (r.score = v))
            = perCollection.flatten.filter (fun r => decide (r.score = v)))
      ∧ (aggregateResults limit perCollection).length = limit
      ∧ ∀ x ∈ aggregateResults limit perCollection,
          ∀ y ∈ (sortScoreDesc (fun r : SearchResult K => r.score)
              perCollection.flatten).drop limit,
            y.score ≤ x.score := by
  refine ⟨rfl, perm_sortScoreDesc _ _, sorted_sortScoreDesc _ _,
    fun v => filter_sortScoreDesc _ v _, ?_, ?_⟩
  · rw [aggregateResults, List.length_take, (perm_sortScoreDesc _ _).length_eq]
    exact min_eq_left hk
  · intro x hx y hy
    rw [aggregateResults] at hx
    exact pairwise_take_drop (sorted_sortScoreDesc _ _) limit hx hy

theorem claim_C5_witness :
    2 ≤ ([[resQ1], [resQ2, resQ3]] : List (List (SearchResult ℚ))).flatten.length ∧
      (aggregateResults 2 [[resQ1], [resQ2, resQ3]]
          = (sortScoreDesc (fun r : SearchResult ℚ => r.score)
              ([[resQ1], [resQ2, resQ3]] : List (List (SearchResult ℚ))).flatten).take 2
        ∧ (sortScoreDesc (fun r : SearchResult ℚ => r.score)
            ([[resQ1], [resQ2, resQ3]] : List (List (SearchResult ℚ))).flatten).Perm
            ([[resQ1], [resQ2, resQ3]] : List (List (SearchResult ℚ))).flatten
        ∧ (sortScoreDesc (fun r : SearchResult ℚ => r.score)
            ([[resQ1], [resQ2, resQ3]] : List (List (SearchResult ℚ))).flatten).Pairwise
            (fun a b => b.score ≤ a.score)
        ∧ (∀ v : ℚ,
            (sortScoreDesc (fun r : SearchResult ℚ => r.score)
                ([[resQ1], [resQ2, resQ3]] : List (List (SearchResult ℚ))).flatten).filter
                (fun r => decide (r.score = v))
              = ([[resQ1], [resQ2, resQ3]] : List (List (SearchResult ℚ))).flatten.filter
                  (fun r => decide (r.score = v)))
        ∧ (aggregateResults 2 [[resQ1], [resQ2, resQ3]]).length = 2
        ∧ ∀ x ∈ aggregateResults 2 [[resQ1], [resQ2, resQ3]],
            ∀ y ∈ (sortScoreDesc (fun r : SearchResult ℚ => r.score)
                ([[resQ1], [resQ2, resQ3]] : List (List (SearchResult ℚ))).flatten).drop 2,
              y.score ≤ x.score) :=
  ⟨by decide, claim_C5_aggregate_merge [[resQ1], [resQ2, resQ3]] 2 (by decide)⟩

/-- C1: in decay mode a collection is queried for `ceil(limit * 3)`
candidates with no score threshold (hypothesis `hok` names exactly that store
call); the result equals decay-adjusting every candidate, filtering to
adjusted score `≥ minScore`, sorting descending by adjusted score and
truncating to `limit`; consequently every returned result has adjusted score
`≥ minScore`, results are sorted, a candidate whose adjusted score falls
below `minScore` is excluded regardless of its raw score, and (as long as
truncation does not intervene) a candidate whose adjusted score reaches
`minScore` is included regardless of its raw score. -/
theorem claim_C1_decay_mode_pipeline (w d : ℝ) (parseTs : String → Option Int)
    (now : Int) (nowIso : String) (limit : ℕ) (minScore : ℝ)
    (search : ℕ → Option ℝ → Except String (List (ScoredPoint ℝ))) (name : String)
    (resp : List (ScoredPoint ℝ))
    (hok : search (decayFetchLimit limit) none = .ok resp)
    (hroom : ((resp.map (adjustPoint w d parseTs now)).filter
        (fun p => decide (minScore ≤ p.score))).length ≤ limit) :
    searchOneCollection true w d parseTs now nowIso limit minScore search name
        = (decayProcess w d parseTs now limit minScore resp).map (renderPoint name nowIso)
      ∧ (∀ r ∈ searchOneCollection true w d parseTs now nowIso limit minScore search name,
          minScore ≤ r.score)
      ∧ (searchOneCollection true w d parseTs now nowIso limit minScore search name).Pairwise
          (fun a b => b.score ≤ a.score)
      ∧ (∀ p ∈ resp, (adjustPoint w d parseTs now p).score < minScore →
          renderPoint name nowIso (adjustPoint w d parseTs now p)
            ∉ searchOneCollection true w d parseTs now nowIso limit minScore search name)
      ∧ (∀ p ∈ resp, minScore ≤ (adjustPoint w d parseTs now p).score →
          renderPoint name nowIso (adjustPoint w d parseTs now p)
            ∈ searchOneCollection true w d parseTs now nowIso limit minScore search name) := by
  have hout : searchOneCollection true w d parseTs now nowIso limit minScore search name
      = (decayProcess w d parseTs now limit minScore resp).map (renderPoint name nowIso) := by
    simp [searchOneCollection, hok]
  have hscore : ∀ r ∈ searchOneCollection true w d parseTs now nowIso limit minScore
      search name, minScore ≤ r.score := by
    intro r hr
    rw [hout] at hr
    rcases List.mem_map.mp hr with ⟨q, hq, hrq⟩
    rw [← hrq, score_renderPoint]
    exact mem_decayProcess_score w d parseTs now limit minScore resp hq
  refine ⟨hout, hscore, ?_, ?_, ?_⟩
  · rw [hout]
    refine @List.Pairwise.map _ _ (fun a b : ScoredPoint ℝ => b.score ≤ a.score) _ _
      (renderPoint name nowIso) (fun a b hab => hab) ?_
    unfold decayProcess
    exact List.Pairwise.sublist (List.take_sublist _ _) (sorted_sortScoreDesc _ _)
  · intro p hp hlt hmem
    exact absurd (hscore _ hmem) (not_le.mpr hlt)
  · intro p hp hge
    rw [hout]
    apply List.mem_map_of_mem
    apply mem_decayProcess_of_room w d parseTs now limit minScore resp hroom
    exact List.mem_filter.mpr ⟨List.mem_map_of_mem _ hp, decide_eq_true hge⟩

theorem claim_C1_witness :
    decayStoreOne (decayFetchLimit 1) none = .ok [⟨"p1", 0.8, emptyPayload⟩] ∧
      (([(⟨"p1", 0.8, emptyPayload⟩ : ScoredPoint ℝ)].map
          (adjustPoint 0 90 parseNone 0)).filter
            (fun p => decide ((0.7 : ℝ) ≤ p.score))).length ≤ 1 ∧
      (searchOneCollection true 0 90 parseNone 0 "i" 1 0.7 decayStoreOne "c"
          = (decayProcess 0 90 parseNone 0 1 0.7
              [⟨"p1", 0.8, emptyPayload⟩]).map (renderPoint "c" "i")
        ∧ (∀ r ∈ searchOneCollection true 0 90 parseNone 0 "i" 1 0.7 decayStoreOne "c",
            (0.7 : ℝ) ≤ r.score)
        ∧ (searchOneCollection true 0 90 parseNone 0 "i" 1 0.7 decayStoreOne "c").Pairwise
            (fun a b => b.score ≤ a.score)
        ∧ (∀ p ∈ [(⟨"p1", 0.8, emptyPayload⟩ : ScoredPoint ℝ)],
            (adjustPoint 0 90 parseNone 0 p).score < 0.7 →
            renderPoint "c" "i" (adjustPoint 0 90 parseNone 0 p)
              ∉ searchOneCollection true 0 90 parseNone 0 "i" 1 0.7 decayStoreOne "c")
        ∧ (∀ p ∈ [(⟨"p1", 0.8, emptyPayload⟩ : ScoredPoint ℝ)],
            (0.7 : ℝ) ≤ (adjustPoint 0 90 parseNone 0 p).score →
            renderPoint "c" "i" (adjustPoint 0 90 parseNone 0 p)
              ∈ searchOneCollection true 0 90 parseNone 0 "i" 1 0.7 decayStoreOne "c")) :=
  ⟨rfl, le_trans (List.length_filter_le _ _) (by simp),
    claim_C1_decay_mode_pipeline 0 90 parseNone 0 "i" 1 0.7 decayStoreOne "c"
      [⟨"p1", 0.8, emptyPayload⟩] rfl
      (le_trans (List.length_filter_le _ _) (by simp))⟩

/-- C6: a candidate whose timestamp is absent or unparseable is not dropped:
its age is `0`, its decay factor is exactly `1`, its adjusted score is
`rawScore + weight`, and it still participates in filtering, sorting and the
final per-collection result set (it is returned whenever its adjusted score
clears `minScore` and truncation leaves room). -/
theorem claim_C6_missing_timestamp (w d : ℝ) (parseTs : String → Option Int)
    (now : Int) (nowIso : String) (limit : ℕ) (minScore : ℝ) (p : ScoredPoint ℝ)
    (hts : p.payload.timestamp = none
        ∨ ∃ s, p.payload.timestamp = some s ∧ parseTs s = none) :
    decayAgeMs parseTs now p.payload.timestamp = 0
      ∧ decayFactor d (decayAgeMs parseTs now p.payload.timestamp) = 1
      ∧ (adjustPoint w d parseTs now p).score = p.score + w
      ∧ ∀ (search : ℕ → Option ℝ → Except String (List (ScoredPoint ℝ)))
          (name : String) (resp : List (ScoredPoint ℝ)),
          search (decayFetchLimit limit) none = .ok resp → p ∈ resp →
          ((resp.map (adjustPoint w d parseTs now)).filter
              (fun q => decide (minScore ≤ q.score))).length ≤ limit →
          minScore ≤ p.score + w →
          renderPoint name nowIso (adjustPoint w d parseTs now p)
            ∈ searchOneCollection true w d parseTs now nowIso limit minScore search name := by
  have hage : decayAgeMs parseTs now p.payload.timestamp = 0 := by
    rcases hts with h | ⟨s, hs, hps⟩
    · simp [decayAgeMs, h]
    · simp [decayAgeMs, hs, hps]
  have hfac : decayFactor d (decayAgeMs parseTs now p.payload.timestamp) = 1 := by
    rw [hage]
    exact decayFactor_age_zero d
  have hadj : (adjustPoint w d parseTs now p).score = p.score + w := by
    show decayAdjust w d parseTs now p.score p.payload.timestamp = p.score + w
    unfold decayAdjust
    rw [hfac, mul_one]
  refine ⟨hage, hfac, hadj, ?_⟩
  intro search name resp hok hp hroom hmin
  have hout : searchOneCollection true w d parseTs now nowIso limit minScore search name
      = (decayProcess w d parseTs now limit minScore resp).map (renderPoint name nowIso) := by
    simp [searchOneCollection, hok]
  rw [hout]
  apply List.mem_map_of_mem
  apply mem_decayProcess_of_room w d parseTs now limit minScore resp hroom
  refine List.mem_filter.mpr ⟨List.mem_map_of_mem _ hp, decide_eq_true ?_⟩
  rw [hadj]
  exact hmin

theorem claim_C6_witness :
    ((⟨"p1", 0.8, emptyPayload⟩ : ScoredPoint ℝ)).payload.timestamp = none ∧
      (decayAgeMs parseNone 0 ((⟨"p1", 0.8, emptyPayload⟩ : ScoredPoint ℝ)).payload.timestamp = 0
        ∧ decayFactor 90
            (decayAgeMs parseNone 0
              ((⟨"p1", 0.8, emptyPayload⟩ : ScoredPoint ℝ)).payload.timestamp) = 1
        ∧ (adjustPoint 0 90 parseNone 0 (⟨"p1", 0.8, emptyPayload⟩ : ScoredPoint ℝ)).score
            = (0.8 : ℝ) + 0
        ∧ ∀ (search : ℕ → Option ℝ → Except String (List (ScoredPoint ℝ)))
            (name : String) (resp : List (ScoredPoint ℝ)),
            search (decayFetchLimit 1) none = .ok resp →
            (⟨"p1", 0.8, emptyPayload⟩ : ScoredPoint ℝ) ∈ resp →
            ((resp.map (adjustPoint 0 90 parseNone 0)).filter
                (fun q => decide ((0.7 : ℝ) ≤ q.score))).length ≤ 1 →
            (0.7 : ℝ) ≤ (0.8 : ℝ) + 0 →
            renderPoint name "i" (adjustPoint 0 90 parseNone 0
                (⟨"p1", 0.8, emptyPayload⟩ : ScoredPoint ℝ))
              ∈ searchOneCollection true 0 90 parseNone 0 "i" 1 0.7 search name) :=
  ⟨rfl, claim_C6_missing_timestamp 0 90 parseNone 0 "i" 1 0.7
    (⟨"p1", 0.8, emptyPayload⟩ : ScoredPoint ℝ) (Or.inl rfl)⟩

/-- C3: the isolation claim fails on the code.  With isolation mode `hybrid`,
`crossProject = false` and current project `projA`, the handler still returns
the result from the foreign project's collection `conv_projB_voyage` (the
handler never consults the isolation configuration; `getVoyageCollections`
filters only on the `_voyage` suffix).  This contradicts the source's own
tool documentation ("Search across all projects (default: false, requires
permission)") and the isolation setup it builds at startup. -/
theorem claim_C3_isolation_violated :
    responseResults (reflectOnPast ctxPlain true (.ok ()) listTwoCollections
        storeTwoProjects scrollEmptyStore argsIndexing).1
      = [renderPoint "conv_projB_voyage" ctxPlain.nowIso ⟨"idB", 0.9, payloadB⟩,
         renderPoint "conv_projA_voyage" ctxPlain.nowIso ⟨"idA", 0.8, payloadA⟩]
      ∧ (renderPoint "conv_projB_voyage" ctxPlain.nowIso
          ((⟨"idB", 0.9, payloadB⟩ : ScoredPoint ℝ))).collectionName = "conv_projB_voyage"
      ∧ (renderPoint "conv_projB_voyage" ctxPlain.nowIso
          ((⟨"idB", 0.9, payloadB⟩ : ScoredPoint ℝ))).projectName = "projB"
      ∧ ctxPlain.isolationMode = "hybrid"
      ∧ argsIndexing.crossProject = false
      ∧ ctxPlain.currentProject = some "projA" := by
  have hv : getVoyageCollections listTwoCollections
      = ["conv_projA_voyage", "conv_projB_voyage"] := by decide
  refine ⟨?_, rfl, ?_, rfl, rfl, rfl⟩
  · norm_num [reflectOnPast, hv, fanOutSearch, searchOneCollection, storeTwoProjects,
      aggregateResults, sortScoreDesc, insertScoreDesc, score_renderPoint,
      responseResults, ctxPlain, argsIndexing]
  · rfl

/-- C8 counterexample: a malformed request (limit `0`, minScore `2`) is not
rejected — the handler returns a successful "no results" response and still
performs store I/O (it queries every `_voyage` collection). -/
theorem claim_C8_counterexample :
    (reflectOnPast ctxPlain true (.ok ()) listTwoCollections storeEmptyResults
        scrollEmptyStore argsMalformed).1 = .ok .noResults
      ∧ EffectCall.searchCall "conv_projA_voyage"
          ∈ (reflectOnPast ctxPlain true (.ok ()) listTwoCollections storeEmptyResults
              scrollEmptyStore argsMalformed).2
      ∧ argsMalformed.limit = 0
      ∧ ¬ ((0 : ℝ) ≤ argsMalformed.minScore ∧ argsMalformed.minScore ≤ 1) := by
  have hv : getVoyageCollections listTwoCollections
      = ["conv_projA_voyage", "conv_projB_voyage"] := by decide
  refine ⟨?_, ?_, rfl, by norm_num [argsMalformed]⟩
  · norm_num [reflectOnPast, hv, fanOutSearch, searchOneCollection, storeEmptyResults,
      aggregateResults, sortScoreDesc, ctxPlain, argsMalformed]
  · norm_num [reflectOnPast, hv, fanOutSearch, searchOneCollection, storeEmptyResults,
      aggregateResults, sortScoreDesc, ctxPlain, argsMalformed]

/-- C8 (amended): the handler performs no request validation at all: even for
a malformed request (non-positive limit or minScore outside `[0,1]`) it never
returns an error — in particular never `InvalidRequest` — and it still issues
a store search for every visible collection. -/
theorem claim_C8_no_validation (ctx : HandlerCtx)
    (listResult : Except String (List String))
    (search : String → ℕ → Option ℝ → Except String (List (ScoredPoint ℝ)))
    (scrollStored : String → Except String (List ScrollPoint)) (args : ReflectArgs)
    (hbad : args.limit = 0 ∨ ¬ ((0 : ℝ) ≤ args.minScore ∧ args.minScore ≤ 1)) :
    (∀ code : McpErrorCode,
        (reflectOnPast ctx true (.ok ()) listResult search scrollStored args).1
          ≠ .error code)
      ∧ ∀ name ∈ getVoyageCollections listResult,
          EffectCall.searchCall name
            ∈ (reflectOnPast ctx true (.ok ()) listResult search scrollStored args).2 := by
  constructor
  · intro code
    simp only [reflectOnPast]
    split_ifs <;> simp
  · intro name hname
    have hne : (getVoyageCollections listResult).isEmpty = false := by
      cases h : (getVoyageCollections listResult).isEmpty
      · rfl
      · rw [List.isEmpty_iff.mp h] at hname
        cases hname
    have hmem : EffectCall.searchCall name
        ∈ (getVoyageCollections listResult).map EffectCall.searchCall :=
      List.mem_map_of_mem _ hname
    simp only [reflectOnPast, hne, Bool.false_eq_true, if_false]
    split_ifs <;> simp [hmem]

theorem claim_C8_no_validation_witness :
    (argsMalformed.limit = 0 ∨ ¬ ((0 : ℝ) ≤ argsMalformed.minScore ∧ argsMalformed.minScore ≤ 1)) ∧
      ((∀ code : McpErrorCode,
          (reflectOnPast ctxPlain true (.ok ()) listTwoCollections storeEmptyResults
              scrollEmptyStore argsMalformed).1 ≠ .error code)
        ∧ ∀ name ∈ getVoyageCollections listTwoCollections,
            EffectCall.searchCall name
              ∈ (reflectOnPast ctxPlain true (.ok ()) listTwoCollections storeEmptyResults
                  scrollEmptyStore argsMalformed).2) :=
  ⟨Or.inl rfl,
    claim_C8_no_validation ctxPlain listTwoCollections storeEmptyResults scrollEmptyStore
      argsMalformed (Or.inl rfl)⟩

end SelfReflect

section ModelSanityChecks
open SelfReflect
example : jsSplitWs "".data = [[]] := by decide
example : jsSplitWs " ".data = [[], []] := by decide
example : jsSplitWs "a b".data = [['a'], ['b']] := by decide
example : jsSplitWs " a".data = [[], ['a']] := by decide
example : jsSplitWs "ab  c ".data = [['a', 'b'], ['c'], []] := by decide
example : containsSub "b c".data "ab cd".data = true := by decide
example : containsSub "".data "xyz".data = true := by decide
example : containsSub "xa".data "xyz".data = false := by decide
example : strEndsWith "conv_projA_voyage" "_voyage" = true := by decide
example : strEndsWith "conversations" "_voyage" = false := by decide
example : lowerStr "Ab C" = "ab c" := by decide
example : jsStrOr (some "") "fallback" = "fallback" := by decide
end ModelSanityChecks
